import Mathlib

/-!
# Verification of the VIKOR ranker (`topsisx/vikor.py`)

A shallow embedding of the `vikor` function over exact rationals (ℚ models the
real-valued computation; the Python floats are IEEE doubles, whose rounding is
not part of the specified behaviour).  The decision matrix is a list of rows,
weights a list of rationals, impacts a list of characters (`'+'` benefit,
`'-'` cost), mirroring the Python data layout.

Each definition below is translated from a specific region of
`src/topsisx/vikor.py`; comments cite the corresponding source lines.
-/

namespace Vikor

/-- The `1e-10` guard added to denominators in the source. -/
def eps : ℚ := 1 / 10000000000

/-- The `1e-6` tolerance used when deciding whether to renormalize weights. -/
def wtol : ℚ := 1 / 1000000

/-- Number of alternatives `m = matrix.shape[0]`. -/
def nalt (data : List (List ℚ)) : ℕ := data.length

/-- Number of criteria `n = matrix.shape[1]` (row length of the table). -/
def ncrit (data : List (List ℚ)) : ℕ := (data.headD []).length

/-- Entry `matrix[i, j]`. -/
def cell (data : List (List ℚ)) (i j : ℕ) : ℚ := (data.getD i []).getD j 0

/-- `np.max` over a nonempty list (the source only applies it to nonempty data). -/
def listMax : List ℚ → ℚ
  | [] => 0
  | x :: xs => xs.foldl max x

/-- `np.min` over a nonempty list. -/
def listMin : List ℚ → ℚ
  | [] => 0
  | x :: xs => xs.foldl min x

/-- Column `j` of the matrix, `matrix[:, j]`. -/
def colVals (data : List (List ℚ)) (j : ℕ) : List ℚ :=
  data.map (fun row => row.getD j 0)

/-- `weights = weights / weights.sum()` when `abs(weights.sum() - 1.0) > 1e-6`
(vikor.py lines 49-51). -/
def normWeights (w : List ℚ) : List ℚ :=
  if |w.sum - 1| > wtol then w.map (· / w.sum) else w

/-- Ideal value of criterion `j`: column max for `'+'`, column min otherwise
(vikor.py lines 57-64). -/
def idealVal (data : List (List ℚ)) (impacts : List Char) (j : ℕ) : ℚ :=
  if impacts.getD j ' ' = '+' then listMax (colVals data j) else listMin (colVals data j)

/-- Anti-ideal value of criterion `j`: the opposite extreme (vikor.py lines 57-64). -/
def antiIdealVal (data : List (List ℚ)) (impacts : List Char) (j : ℕ) : ℚ :=
  if impacts.getD j ' ' = '+' then listMin (colVals data j) else listMax (colVals data j)

/-- `weights * (ideal - matrix[i, :]) / (ideal - anti_ideal + 1e-10)`, entry `j`
(vikor.py line 71).  `w` is the weight vector as used there, i.e. after the
normalization of lines 49-51 (applied once in `vikorCore`). -/
def wdist (data : List (List ℚ)) (w : List ℚ) (impacts : List Char) (i j : ℕ) : ℚ :=
  w.getD j 0 * (idealVal data impacts j - cell data i j) /
    (idealVal data impacts j - antiIdealVal data impacts j + eps)

/-- `S[i] = np.sum(weighted_distances)` for each alternative (vikor.py line 72). -/
def Svals (data : List (List ℚ)) (w : List ℚ) (impacts : List Char) : List ℚ :=
  (List.range (nalt data)).map
    (fun i => ((List.range (ncrit data)).map (wdist data w impacts i)).sum)

/-- `R[i] = np.max(weighted_distances)` for each alternative (vikor.py line 73). -/
def Rvals (data : List (List ℚ)) (w : List ℚ) (impacts : List Char) : List ℚ :=
  (List.range (nalt data)).map
    (fun i => listMax ((List.range (ncrit data)).map (wdist data w impacts i)))

/-- `Q = v*(S-S*)/(S_minus-S*+1e-10) + (1-v)*(R-R*)/(R_minus-R*+1e-10)`
(vikor.py lines 76-84). -/
def Qvals (data : List (List ℚ)) (w : List ℚ) (impacts : List Char) (v : ℚ) : List ℚ :=
  let S := Svals data w impacts
  let R := Rvals data w impacts
  (List.range (nalt data)).map (fun i =>
    v * (S.getD i 0 - listMin S) / (listMax S - listMin S + eps) +
    (1 - v) * (R.getD i 0 - listMin R) / (listMax R - listMin R + eps))

/-- `pandas.Series.rank(ascending=True, method='min')`: one plus the number of
strictly smaller entries. -/
def minRank (xs : List ℚ) (i : ℕ) : ℕ :=
  1 + xs.countP (fun y => y < xs.getD i 0)

/-- The rank column obtained from `xs` (vikor.py lines 92-99). -/
def rankList (xs : List ℚ) : List ℕ :=
  (List.range xs.length).map (minRank xs)

/-- Comparison of row indices by their value in `q`. -/
def keyLe (q : List ℚ) (i j : ℕ) : Prop := q.getD i 0 ≤ q.getD j 0

instance (q : List ℚ) : DecidableRel (keyLe q) := fun i j => by
  unfold keyLe; infer_instance

instance (q : List ℚ) : IsTotal ℕ (keyLe q) :=
  ⟨fun i j => le_total (q.getD i 0) (q.getD j 0)⟩

instance (q : List ℚ) : IsTrans ℕ (keyLe q) :=
  ⟨fun _ _ _ hij hjk => le_trans hij hjk⟩

/-- `result.sort_values('Q_Rank')` modelled as a stable sort of the row indices.
Sorting by the integer rank orders rows exactly as sorting by the `Q` value,
since `minRank` is strictly monotone in the value (vikor.py line 105). -/
def sortOrder (q : List ℚ) : List ℕ :=
  List.insertionSort (keyLe q) (List.range q.length)

/-- `DQ = 1.0 / (m - 1) if m > 1 else 1.0` (vikor.py line 108). -/
def dqVal (m : ℕ) : ℚ := if 1 < m then 1 / ((m : ℚ) - 1) else 1

/-- `Q_sorted = sorted_result['Q'].values` (vikor.py line 109). -/
def qSorted (q : List ℚ) : List ℚ :=
  (sortOrder q).map (fun i => q.getD i 0)

/-- `C1_satisfied = (Q_sorted[1] - Q_sorted[0] >= DQ)` when `m > 1`, else `True`
(vikor.py lines 111-115). -/
def c1sat (q : List ℚ) : Bool :=
  if 1 < q.length then
    decide ((qSorted q).getD 1 0 - (qSorted q).getD 0 0 ≥ dqVal q.length)
  else true

/-- `best_Q_idx = sorted_result.index[0]` (vikor.py line 119). -/
def bestQIdx (q : List ℚ) : ℕ := (sortOrder q).headD 0

/-- `result[result['X_Rank'] == 1].index[0]`: first row whose rank is 1
(vikor.py lines 120-121). -/
def bestByRank (xs : List ℚ) : ℕ := (rankList xs).findIdx (· == 1)

/-- `C2_satisfied = (best_Q_idx == best_S_idx) or (best_Q_idx == best_R_idx)`
(vikor.py line 123). -/
def c2sat (data : List (List ℚ)) (w : List ℚ) (impacts : List Char) (v : ℚ) : Bool :=
  bestQIdx (Qvals data w impacts v) == bestByRank (Svals data w impacts) ||
  bestQIdx (Qvals data w impacts v) == bestByRank (Rvals data w impacts)

/-- The flag-setting loop `result.loc[idx, 'Is_Compromise'] = True` applied to
each index of `l` that satisfies `P` (vikor.py lines 139-142). -/
def condSetFold (P : ℕ → Prop) [DecidablePred P] (l : List ℕ) (fl : List Bool) : List Bool :=
  l.foldl (fun fl i => if P i then fl.set i true else fl) fl

/-- The unconditional flag-setting loop of vikor.py lines 146-147. -/
def setFold (l : List ℕ) (fl : List Bool) : List Bool :=
  l.foldl (fun fl i => fl.set i true) fl

/-- The `if idx not in compromise_set: compromise_set.append(idx)` loop of
vikor.py lines 146-149. -/
def dedupFold (l : List ℕ) (cs : List ℕ) : List ℕ :=
  l.foldl (fun cs i => if i ∈ cs then cs else cs ++ [i]) cs

/-- The `Is_Compromise` column (vikor.py lines 126-149): starts all `False`,
then one of the three branches sets flags via `result.loc[idx, ...] = True`. -/
def compromiseFlags (data : List (List ℚ)) (w : List ℚ) (impacts : List Char) (v : ℚ) :
    List Bool :=
  if c1sat (Qvals data w impacts v) && c2sat data w impacts v then
    (List.replicate (nalt data) false).set (bestQIdx (Qvals data w impacts v)) true
  else if !c1sat (Qvals data w impacts v) then
    condSetFold
      (fun i => (Qvals data w impacts v).getD i 0 -
        (qSorted (Qvals data w impacts v)).getD 0 0 < dqVal (nalt data))
      (sortOrder (Qvals data w impacts v)) (List.replicate (nalt data) false)
  else
    setFold [bestQIdx (Qvals data w impacts v), bestByRank (Svals data w impacts),
        bestByRank (Rvals data w impacts)]
      (List.replicate (nalt data) false)

/-- The `compromise_set` list accumulated alongside the flags
(vikor.py lines 128-149); in the C1-failure branch indices are appended in
`Q`-sorted order, in the C2-failure branch duplicates are skipped. -/
def compromiseSet (data : List (List ℚ)) (w : List ℚ) (impacts : List Char) (v : ℚ) :
    List ℕ :=
  if c1sat (Qvals data w impacts v) && c2sat data w impacts v then
    [bestQIdx (Qvals data w impacts v)]
  else if !c1sat (Qvals data w impacts v) then
    (sortOrder (Qvals data w impacts v)).filter
      (fun i => decide ((Qvals data w impacts v).getD i 0 -
        (qSorted (Qvals data w impacts v)).getD 0 0 < dqVal (nalt data)))
  else
    dedupFold [bestQIdx (Qvals data w impacts v), bestByRank (Svals data w impacts),
        bestByRank (Rvals data w impacts)]
      []

/-- The annotated result: original rows plus the `S`, `R`, `Q`, rank,
`Is_Compromise` columns and the `result.attrs` metadata
(vikor.py lines 87-156). -/
structure VikorResult where
  table : List (List ℚ)
  S : List ℚ
  R : List ℚ
  Q : List ℚ
  qRank : List ℕ
  sRank : List ℕ
  rRank : List ℕ
  rank : List ℕ
  isCompromise : List Bool
  c1 : Bool
  c2 : Bool
  dq : ℚ
  compromise : List ℕ
  deriving Repr, DecidableEq

/-- The computation performed after validation succeeds (vikor.py lines
49-156): the weights are normalized once (lines 49-51) and every later stage
uses the normalized vector; `Rank` is a copy of `Q_Rank` (line 102). -/
def vikorCore (data : List (List ℚ)) (w : List ℚ) (impacts : List Char) (v : ℚ) :
    VikorResult :=
  { table := data
    S := Svals data (normWeights w) impacts
    R := Rvals data (normWeights w) impacts
    Q := Qvals data (normWeights w) impacts v
    qRank := rankList (Qvals data (normWeights w) impacts v)
    sRank := rankList (Svals data (normWeights w) impacts)
    rRank := rankList (Rvals data (normWeights w) impacts)
    rank := rankList (Qvals data (normWeights w) impacts v)
    isCompromise := compromiseFlags data (normWeights w) impacts v
    c1 := c1sat (Qvals data (normWeights w) impacts v)
    c2 := c2sat data (normWeights w) impacts v
    dq := dqVal (nalt data)
    compromise := compromiseSet data (normWeights w) impacts v }

/-- The `vikor` entry point (vikor.py lines 4-179).  The three `raise
ValueError` validations of lines 40-47 become `Except.error`; the `verbose`
block (lines 158-176) only prints diagnostics, so the returned value is built
independently of `verbose`. -/
def vikor (data : List (List ℚ)) (weights : List ℚ) (impacts : List Char)
    (v : ℚ) (verbose : Bool) : Except String VikorResult :=
  if weights.length ≠ ncrit data then
    .error "Number of weights must match number of criteria."
  else if impacts.length ≠ ncrit data then
    .error "Number of impacts must match number of criteria."
  else if ¬ (impacts.all (fun c => c == '+' || c == '-')) then
    .error "Impacts must be + or - only."
  else
    .ok (vikorCore data weights impacts v)

/-! ### Well-formedness of inputs -/

/-- A well-formed decision matrix: nonempty, rectangular, with at least one
criterion (`df.values` of an `m × n` table with `m, n ≥ 1`). -/
def Rect (data : List (List ℚ)) : Prop :=
  0 < data.length ∧ 0 < ncrit data ∧ ∀ row ∈ data, row.length = ncrit data

instance (data : List (List ℚ)) : Decidable (Rect data) := by
  unfold Rect; infer_instance

/-- Validation conditions of vikor.py lines 40-47. -/
def ValidArgs (data : List (List ℚ)) (weights : List ℚ) (impacts : List Char) : Prop :=
  weights.length = ncrit data ∧ impacts.length = ncrit data ∧
    ∀ c ∈ impacts, c = '+' ∨ c = '-'

instance (data : List (List ℚ)) (weights : List ℚ) (impacts : List Char) :
    Decidable (ValidArgs data weights impacts) := by
  unfold ValidArgs; infer_instance

/-! ### Specification-side notions

These formalize the spec's wording independently of the implementation:
column extremes, the maximum of a family, and "best-ranked, first in table
order among ties". -/

/-- `v` is the maximum of column `j` (spec: "the ideal value is the column
maximum if its impact is benefit"). -/
def IsColMax (data : List (List ℚ)) (j : ℕ) (x : ℚ) : Prop :=
  (∃ i < data.length, cell data i j = x) ∧ ∀ i < data.length, cell data i j ≤ x

/-- `v` is the minimum of column `j`. -/
def IsColMin (data : List (List ℚ)) (j : ℕ) (x : ℚ) : Prop :=
  (∃ i < data.length, cell data i j = x) ∧ ∀ i < data.length, x ≤ cell data i j

/-- `x` is the maximum of `f` over `0, …, n-1` (spec: "R(i) = max over criteria"). -/
def IsMaxOver (n : ℕ) (f : ℕ → ℚ) (x : ℚ) : Prop :=
  (∃ j < n, f j = x) ∧ ∀ j < n, f j ≤ x

/-- `x` is the minimum of the entries of a list (spec: "S*, R* the min of S, R"). -/
def IsMinOf (xs : List ℚ) (x : ℚ) : Prop :=
  x ∈ xs ∧ ∀ y ∈ xs, x ≤ y

/-- `x` is the maximum of the entries of a list (spec: "S⁻, R⁻ the max of S, R"). -/
def IsMaxOf (xs : List ℚ) (x : ℚ) : Prop :=
  x ∈ xs ∧ ∀ y ∈ xs, y ≤ x

/-- Index `b` holds the smallest value of `xs` and is the first row in table
order to do so (the spec's "best-ranked" with minimum-rank ties resolved to
the first row, per the design note on tie-breaking). -/
def IsFirstMin (xs : List ℚ) (b : ℕ) : Prop :=
  b < xs.length ∧ (∀ j < xs.length, xs.getD b 0 ≤ xs.getD j 0) ∧
    ∀ j < b, xs.getD b 0 < xs.getD j 0

/-! ### Basic list lemmas -/

theorem getD_map_range {α : Type} {f : ℕ → α} {m i : ℕ} (h : i < m) (d : α) :
    ((List.range m).map f).getD i d = f i := by
  rw [List.getD_eq_getElem?_getD, List.getElem?_map, List.getElem?_range h]
  rfl

theorem map_getD_range_self (l : List ℚ) :
    (List.range l.length).map (fun i => l.getD i 0) = l := by
  induction l with
  | nil => rfl
  | cons x xs ih =>
    rw [List.length_cons, List.range_succ_eq_map, List.map_cons, List.map_map]
    simp only [List.getD_cons_zero, Function.comp_def, List.getD_cons_succ]
    rw [ih]

theorem list_sum_range (f : ℕ → ℚ) (n : ℕ) :
    ((List.range n).map f).sum = ∑ j ∈ Finset.range n, f j := by
  induction n with
  | zero => rfl
  | succ k ih =>
    rw [List.range_succ, List.map_append, List.sum_append, Finset.sum_range_succ, ih]
    simp

theorem foldl_max_spec (xs : List ℚ) (a : ℚ) :
    (xs.foldl max a = a ∨ xs.foldl max a ∈ xs) ∧ a ≤ xs.foldl max a ∧
      ∀ x ∈ xs, x ≤ xs.foldl max a := by
  induction xs generalizing a with
  | nil => exact ⟨Or.inl rfl, le_refl a, by simp⟩
  | cons y ys ih =>
    obtain ⟨hmem, hle, hall⟩ := ih (max a y)
    simp only [List.foldl_cons]
    refine ⟨?_, le_trans (le_max_left a y) hle, ?_⟩
    · rcases hmem with h | h
      · rcases max_choice a y with hc | hc
        · exact Or.inl (by rw [h, hc])
        · exact Or.inr (by rw [h, hc]; exact List.mem_cons_self y ys)
      · exact Or.inr (List.mem_cons_of_mem y h)
    · intro x hx
      rcases List.mem_cons.mp hx with hx | hx
      · exact hx.le.trans (le_trans (le_max_right a y) hle)
      · exact hall x hx

theorem foldl_min_spec (xs : List ℚ) (a : ℚ) :
    (xs.foldl min a = a ∨ xs.foldl min a ∈ xs) ∧ xs.foldl min a ≤ a ∧
      ∀ x ∈ xs, xs.foldl min a ≤ x := by
  induction xs generalizing a with
  | nil => exact ⟨Or.inl rfl, le_refl a, by simp⟩
  | cons y ys ih =>
    obtain ⟨hmem, hle, hall⟩ := ih (min a y)
    simp only [List.foldl_cons]
    refine ⟨?_, le_trans hle (min_le_left a y), ?_⟩
    · rcases hmem with h | h
      · rcases min_choice a y with hc | hc
        · exact Or.inl (by rw [h, hc])
        · exact Or.inr (by rw [h, hc]; exact List.mem_cons_self y ys)
      · exact Or.inr (List.mem_cons_of_mem y h)
    · intro x hx
      rcases List.mem_cons.mp hx with hx | hx
      · exact (le_trans hle (min_le_right a y)).trans hx.ge
      · exact hall x hx

theorem listMax_isMaxOf {l : List ℚ} (h : l ≠ []) : IsMaxOf l (listMax l) := by
  match l, h with
  | x :: xs, _ =>
    obtain ⟨hmem, hle, hall⟩ := foldl_max_spec xs x
    show List.foldl max x xs ∈ x :: xs ∧ ∀ y ∈ x :: xs, y ≤ List.foldl max x xs
    refine ⟨?_, ?_⟩
    · rcases hmem with h | h
      · rw [h]; exact List.mem_cons_self x xs
      · exact List.mem_cons_of_mem x h
    · intro y hy
      rcases List.mem_cons.mp hy with hy | hy
      · exact hy.le.trans hle
      · exact hall y hy

theorem listMin_isMinOf {l : List ℚ} (h : l ≠ []) : IsMinOf l (listMin l) := by
  match l, h with
  | x :: xs, _ =>
    obtain ⟨hmem, hle, hall⟩ := foldl_min_spec xs x
    show List.foldl min x xs ∈ x :: xs ∧ ∀ y ∈ x :: xs, List.foldl min x xs ≤ y
    refine ⟨?_, ?_⟩
    · rcases hmem with h | h
      · rw [h]; exact List.mem_cons_self x xs
      · exact List.mem_cons_of_mem x h
    · intro y hy
      rcases List.mem_cons.mp hy with hy | hy
      · exact le_trans hle hy.ge
      · exact hall y hy

theorem le_listMax {l : List ℚ} {x : ℚ} (hx : x ∈ l) : x ≤ listMax l :=
  (listMax_isMaxOf (List.ne_nil_of_mem hx)).2 x hx

theorem listMin_le {l : List ℚ} {x : ℚ} (hx : x ∈ l) : listMin l ≤ x :=
  (listMin_isMinOf (List.ne_nil_of_mem hx)).2 x hx

theorem listMin_le_listMax {l : List ℚ} (h : l ≠ []) : listMin l ≤ listMax l :=
  le_trans (listMin_le (listMax_isMaxOf h).1) (le_refl _)

/-! ### Lemmas about the stable sort of row indices -/

theorem sortOrder_perm (q : List ℚ) : List.Perm (sortOrder q) (List.range q.length) :=
  List.perm_insertionSort _ _

theorem sortOrder_sorted (q : List ℚ) : List.Sorted (keyLe q) (sortOrder q) :=
  List.sorted_insertionSort _ _

theorem sortOrder_length (q : List ℚ) : (sortOrder q).length = q.length := by
  rw [(sortOrder_perm q).length_eq, List.length_range]

theorem sortOrder_mem {q : List ℚ} {i : ℕ} : i ∈ sortOrder q ↔ i < q.length := by
  rw [(sortOrder_perm q).mem_iff, List.mem_range]

theorem sortOrder_nodup (q : List ℚ) : (sortOrder q).Nodup :=
  ((sortOrder_perm q).nodup_iff).mpr (List.nodup_range _)

theorem pair_sublist_range {j b m : ℕ} (hjb : j < b) (hbm : b < m) :
    List.Sublist [j, b] (List.range m) := by
  have h1 : List.Sublist [j] (List.range b) :=
    List.singleton_sublist.mpr (List.mem_range.mpr hjb)
  have h2 : List.Sublist ([j] ++ [b]) (List.range b ++ [b]) :=
    List.Sublist.append h1 (List.Sublist.refl _)
  rw [← List.range_succ] at h2
  exact h2.trans (List.range_sublist.mpr hbm)

/-- The head of the stable sort is the first row in table order holding the
minimal value. -/
theorem bestQIdx_isFirstMin {q : List ℚ} (h : 0 < q.length) : IsFirstMin q (bestQIdx q) := by
  have hpos : 0 < (sortOrder q).length := by rw [sortOrder_length]; exact h
  have hne : sortOrder q ≠ [] := List.length_pos.mp hpos
  obtain ⟨b, t, hbt⟩ := List.exists_cons_of_ne_nil hne
  have hb : bestQIdx q = b := by rw [bestQIdx, hbt]; rfl
  have hbmem : b ∈ sortOrder q := by rw [hbt]; exact List.mem_cons_self b t
  have hblt : b < q.length := sortOrder_mem.mp hbmem
  refine hb ▸ ⟨hblt, ?_, ?_⟩
  · intro j hj
    have hjmem : j ∈ sortOrder q := sortOrder_mem.mpr hj
    rw [hbt] at hjmem
    rcases List.mem_cons.mp hjmem with hj' | hj'
    · rw [hj']
    · have hsorted := sortOrder_sorted q
      rw [hbt] at hsorted
      exact List.rel_of_sorted_cons hsorted j hj'
  · intro j hjb
    by_contra hcon
    push_neg at hcon
    have hkey : keyLe q j b := hcon
    have hsub : List.Sublist [j, b] (List.range q.length) := pair_sublist_range hjb hblt
    have hstab : List.Sublist [j, b] (sortOrder q) :=
      List.pair_sublist_insertionSort hkey hsub
    rw [hbt] at hstab
    have hnodup := sortOrder_nodup q
    rw [hbt] at hnodup
    have hbnott : b ∉ t := (List.nodup_cons.mp hnodup).1
    cases hstab with
    | cons _ h2 =>
      exact hbnott (h2.subset (by simp))
    | cons₂ _ h2 =>
      exact absurd rfl (Nat.ne_of_lt hjb)

theorem isFirstMin_unique {xs : List ℚ} {b b' : ℕ}
    (hb : IsFirstMin xs b) (hb' : IsFirstMin xs b') : b = b' := by
  obtain ⟨hbl, hble, hbfst⟩ := hb
  obtain ⟨hbl', hble', hbfst'⟩ := hb'
  rcases Nat.lt_trichotomy b b' with h | h | h
  · exact absurd (hble b' hbl') (not_le_of_lt (hbfst' b h))
  · exact h
  · exact absurd (hble' b hbl) (not_le_of_lt (hbfst b' h))

theorem isFirstMin_isMinOf {xs : List ℚ} {b : ℕ} (hb : IsFirstMin xs b) :
    IsMinOf xs (xs.getD b 0) := by
  obtain ⟨hbl, hble, _⟩ := hb
  constructor
  · rw [List.getD_eq_getElem _ _ hbl]
    exact List.getElem_mem hbl
  · intro y hy
    obtain ⟨j, hj, hjy⟩ := List.mem_iff_getElem.mp hy
    rw [← hjy, ← List.getD_eq_getElem xs 0 hj]
    exact hble j hj

/-! ### Lemmas about the sorted Q column -/

theorem qSorted_perm (q : List ℚ) : List.Perm (qSorted q) q := by
  have h := (sortOrder_perm q).map (fun i => q.getD i 0)
  rw [map_getD_range_self q] at h
  exact h

theorem qSorted_sorted (q : List ℚ) : List.Sorted (· ≤ ·) (qSorted q) := by
  rw [qSorted, List.Sorted, List.pairwise_map]
  exact sortOrder_sorted q

theorem qSorted_getD_zero {q : List ℚ} (h : 0 < q.length) :
    (qSorted q).getD 0 0 = q.getD (bestQIdx q) 0 := by
  have hpos : 0 < (sortOrder q).length := by rw [sortOrder_length]; exact h
  have hne : sortOrder q ≠ [] := List.length_pos.mp hpos
  obtain ⟨b, t, hbt⟩ := List.exists_cons_of_ne_nil hne
  rw [qSorted, bestQIdx, hbt]
  rfl

/-! ### Lemmas about rank assignment -/

theorem rankList_length (xs : List ℚ) : (rankList xs).length = xs.length := by
  rw [rankList, List.length_map, List.length_range]

theorem rankList_getD {xs : List ℚ} {i : ℕ} (h : i < xs.length) :
    (rankList xs).getD i 0 = minRank xs i :=
  getD_map_range h 0

theorem minRank_eq_one_iff {xs : List ℚ} (i : ℕ) :
    minRank xs i = 1 ↔ ∀ y ∈ xs, xs.getD i 0 ≤ y := by
  rw [minRank]
  constructor
  · intro h y hy
    have h0 : xs.countP (fun y => y < xs.getD i 0) = 0 := by omega
    have := List.countP_eq_zero.mp h0 y hy
    simpa using this
  · intro h
    have h0 : xs.countP (fun y => y < xs.getD i 0) = 0 :=
      List.countP_eq_zero.mpr (fun y hy => by simpa using not_lt_of_le (h y hy))
    omega

theorem minRank_ne_one {xs : List ℚ} {i : ℕ} (h : minRank xs i ≠ 1) :
    ∃ y ∈ xs, y < xs.getD i 0 := by
  by_contra hcon
  push_neg at hcon
  exact h ((minRank_eq_one_iff i).mpr (fun y hy => (hcon y hy)))

/-- The first row whose rank column shows 1 is the first row in table order
holding the minimal value. -/
theorem bestByRank_isFirstMin {xs : List ℚ} (h : 0 < xs.length) :
    IsFirstMin xs (bestByRank xs) := by
  -- some row has rank 1: the first row holding the minimum
  have hmin : listMin xs ∈ xs := (listMin_isMinOf (List.length_pos.mp h)).1
  obtain ⟨i0, hi0, hi0v⟩ := List.mem_iff_getElem.mp hmin
  have hrank1 : minRank xs i0 = 1 := by
    refine (minRank_eq_one_iff i0).mpr ?_
    intro y hy
    rw [List.getD_eq_getElem _ _ hi0, hi0v]
    exact listMin_le hy
  have hex : ∃ x ∈ rankList xs, (x == 1) = true := by
    refine ⟨minRank xs i0, ?_, by simp [hrank1]⟩
    have : (rankList xs).getD i0 0 = minRank xs i0 := rankList_getD hi0
    rw [← this]
    rw [List.getD_eq_getElem _ _ (by rw [rankList_length]; exact hi0)]
    exact List.getElem_mem _
  have hblt : bestByRank xs < (rankList xs).length :=
    List.findIdx_lt_length_of_exists hex
  have hblt' : bestByRank xs < xs.length := by rwa [rankList_length] at hblt
  have hbval : ((rankList xs).get ⟨bestByRank xs, hblt⟩ == 1) = true :=
    @List.findIdx_getElem ℕ (fun x => x == 1) (rankList xs) hblt
  have hbrank : minRank xs (bestByRank xs) = 1 := by
    have hgd : (rankList xs).getD (bestByRank xs) 0 =
        (rankList xs).get ⟨bestByRank xs, hblt⟩ :=
      List.getD_eq_getElem (rankList xs) 0 hblt
    rw [rankList_getD hblt'] at hgd
    rw [← hgd] at hbval
    simpa using hbval
  refine ⟨hblt', ?_, ?_⟩
  · intro j hj
    have := (minRank_eq_one_iff (bestByRank xs)).mp hbrank
    refine this _ ?_
    rw [List.getD_eq_getElem _ _ hj]
    exact List.getElem_mem hj
  · intro j hjb
    have hjlen : j < xs.length := lt_trans hjb hblt'
    have hjlen' : j < (rankList xs).length := by rwa [rankList_length]
    have hjval : ((rankList xs).get ⟨j, hjlen'⟩ == 1) = false :=
      List.not_of_lt_findIdx hjb
    have hjrank : minRank xs j ≠ 1 := by
      have : (rankList xs).getD j 0 = (rankList xs).get ⟨j, hjlen'⟩ :=
        List.getD_eq_getElem (rankList xs) 0 hjlen'
      rw [rankList_getD hjlen] at this
      rw [← this] at hjval
      simpa using hjval
    obtain ⟨y, hy, hylt⟩ := minRank_ne_one hjrank
    have hble : xs.getD (bestByRank xs) 0 ≤ y :=
      (minRank_eq_one_iff (bestByRank xs)).mp hbrank y hy
    exact lt_of_le_of_lt hble hylt

/-! ### Accessor lemmas for the computed columns -/

theorem eps_pos : 0 < eps := by norm_num [eps]

theorem Svals_length (data : List (List ℚ)) (w : List ℚ) (impacts : List Char) :
    (Svals data w impacts).length = nalt data := by
  rw [Svals, List.length_map, List.length_range]

theorem Rvals_length (data : List (List ℚ)) (w : List ℚ) (impacts : List Char) :
    (Rvals data w impacts).length = nalt data := by
  rw [Rvals, List.length_map, List.length_range]

theorem Qvals_length (data : List (List ℚ)) (w : List ℚ) (impacts : List Char) (v : ℚ) :
    (Qvals data w impacts v).length = nalt data := by
  rw [Qvals, List.length_map, List.length_range]

theorem Svals_getD {data : List (List ℚ)} {w : List ℚ} {impacts : List Char} {i : ℕ}
    (h : i < nalt data) :
    (Svals data w impacts).getD i 0 =
      ((List.range (ncrit data)).map (wdist data w impacts i)).sum :=
  getD_map_range h 0

theorem Rvals_getD {data : List (List ℚ)} {w : List ℚ} {impacts : List Char} {i : ℕ}
    (h : i < nalt data) :
    (Rvals data w impacts).getD i 0 =
      listMax ((List.range (ncrit data)).map (wdist data w impacts i)) :=
  getD_map_range h 0

theorem Qvals_getD {data : List (List ℚ)} {w : List ℚ} {impacts : List Char} {v : ℚ} {i : ℕ}
    (h : i < nalt data) :
    (Qvals data w impacts v).getD i 0 =
      v * ((Svals data w impacts).getD i 0 - listMin (Svals data w impacts)) /
        (listMax (Svals data w impacts) - listMin (Svals data w impacts) + eps) +
      (1 - v) * ((Rvals data w impacts).getD i 0 - listMin (Rvals data w impacts)) /
        (listMax (Rvals data w impacts) - listMin (Rvals data w impacts) + eps) :=
  getD_map_range h 0

theorem normWeights_of_close {w : List ℚ} (h : |w.sum - 1| ≤ wtol) : normWeights w = w := by
  rw [normWeights, if_neg (not_lt.mpr h)]

theorem colVals_mem {data : List (List ℚ)} {j : ℕ} {x : ℚ} :
    x ∈ colVals data j ↔ ∃ i < data.length, cell data i j = x := by
  rw [colVals, List.mem_map]
  constructor
  · rintro ⟨row, hrow, hx⟩
    obtain ⟨i, hi, hieq⟩ := List.mem_iff_getElem.mp hrow
    refine ⟨i, hi, ?_⟩
    rw [cell, List.getD_eq_getElem data [] hi, hieq, hx]
  · rintro ⟨i, hi, hx⟩
    refine ⟨data[i], List.getElem_mem hi, ?_⟩
    rw [← hx, cell, List.getD_eq_getElem data [] hi]

theorem colVals_ne_nil {data : List (List ℚ)} (h : 0 < data.length) (j : ℕ) :
    colVals data j ≠ [] := by
  have : (colVals data j).length = data.length := by rw [colVals, List.length_map]
  intro hnil
  rw [hnil] at this
  simp at this
  omega

/-- For a benefit criterion the code picks the column max as ideal and the
column min as anti-ideal; for a cost criterion the opposite. -/
theorem idealVal_spec {data : List (List ℚ)} {impacts : List Char} {j : ℕ}
    (h : 0 < data.length) :
    (impacts.getD j ' ' = '+' →
      IsColMax data j (idealVal data impacts j) ∧
      IsColMin data j (antiIdealVal data impacts j)) ∧
    (impacts.getD j ' ' ≠ '+' →
      IsColMin data j (idealVal data impacts j) ∧
      IsColMax data j (antiIdealVal data impacts j)) := by
  have hne := colVals_ne_nil h j
  have hmax := listMax_isMaxOf hne
  have hmin := listMin_isMinOf hne
  have hcmax : IsColMax data j (listMax (colVals data j)) := by
    refine ⟨colVals_mem.mp hmax.1, fun i hi => hmax.2 _ (colVals_mem.mpr ⟨i, hi, rfl⟩)⟩
  have hcmin : IsColMin data j (listMin (colVals data j)) := by
    refine ⟨colVals_mem.mp hmin.1, fun i hi => hmin.2 _ (colVals_mem.mpr ⟨i, hi, rfl⟩)⟩
  constructor
  · intro hj
    rw [idealVal, antiIdealVal, if_pos hj, if_pos hj]
    exact ⟨hcmax, hcmin⟩
  · intro hj
    rw [idealVal, antiIdealVal, if_neg hj, if_neg hj]
    exact ⟨hcmin, hcmax⟩

/-! ### Lemmas about the compromise flags and set -/

theorem foldl_condset_length (P : ℕ → Prop) [DecidablePred P] :
    ∀ (l : List ℕ) (fl : List Bool),
      (l.foldl (fun fl i => if P i then fl.set i true else fl) fl).length = fl.length := by
  intro l
  induction l with
  | nil => intro fl; rfl
  | cons i t ih =>
    intro fl
    rw [List.foldl_cons]
    by_cases hP : P i
    · rw [if_pos hP, ih, List.length_set]
    · rw [if_neg hP, ih]

theorem foldl_condset_getD (P : ℕ → Prop) [DecidablePred P] :
    ∀ (l : List ℕ) (fl : List Bool) (k : ℕ), k < fl.length →
      ((l.foldl (fun fl i => if P i then fl.set i true else fl) fl).getD k false = true ↔
        fl.getD k false = true ∨ (k ∈ l ∧ P k)) := by
  intro l
  induction l with
  | nil => intro fl k _; simp
  | cons i t ih =>
    intro fl k hk
    rw [List.foldl_cons]
    by_cases hP : P i
    · rw [if_pos hP]
      rw [ih (fl.set i true) k (by rw [List.length_set]; exact hk)]
      have hset : (fl.set i true).getD k false = true ↔ (fl.getD k false = true ∨ i = k) := by
        rw [List.getD_eq_getElem _ _ (by rw [List.length_set]; exact hk),
          List.getElem_set, List.getD_eq_getElem _ _ hk]
        by_cases hik : i = k
        · simp [hik]
        · simp [hik]
      rw [hset]
      constructor
      · rintro (( hfl | hik) | hmem)
        · exact Or.inl hfl
        · exact Or.inr ⟨hik ▸ List.mem_cons_self i t, hik ▸ hP⟩
        · exact Or.inr ⟨List.mem_cons_of_mem i hmem.1, hmem.2⟩
      · rintro (hfl | ⟨hmem, hPk⟩)
        · exact Or.inl (Or.inl hfl)
        · rcases List.mem_cons.mp hmem with hki | hkt
          · exact Or.inl (Or.inr hki.symm)
          · exact Or.inr ⟨hkt, hPk⟩
    · rw [if_neg hP]
      rw [ih fl k hk]
      constructor
      · rintro (hfl | hmem)
        · exact Or.inl hfl
        · exact Or.inr ⟨List.mem_cons_of_mem i hmem.1, hmem.2⟩
      · rintro (hfl | ⟨hmem, hPk⟩)
        · exact Or.inl hfl
        · rcases List.mem_cons.mp hmem with hki | hkt
          · exact absurd (hki ▸ hPk) hP
          · exact Or.inr ⟨hkt, hPk⟩

theorem foldl_set_length :
    ∀ (l : List ℕ) (fl : List Bool),
      (l.foldl (fun fl i => fl.set i true) fl).length = fl.length := by
  intro l
  induction l with
  | nil => intro fl; rfl
  | cons i t ih => intro fl; rw [List.foldl_cons, ih, List.length_set]

theorem foldl_set_getD :
    ∀ (l : List ℕ) (fl : List Bool) (k : ℕ), k < fl.length →
      ((l.foldl (fun fl i => fl.set i true) fl).getD k false = true ↔
        fl.getD k false = true ∨ k ∈ l) := by
  intro l
  induction l with
  | nil => intro fl k _; simp
  | cons i t ih =>
    intro fl k hk
    rw [List.foldl_cons, ih (fl.set i true) k (by rw [List.length_set]; exact hk)]
    have hset : (fl.set i true).getD k false = true ↔ (fl.getD k false = true ∨ i = k) := by
      rw [List.getD_eq_getElem _ _ (by rw [List.length_set]; exact hk),
        List.getElem_set, List.getD_eq_getElem _ _ hk]
      by_cases hik : i = k
      · simp [hik]
      · simp [hik]
    rw [hset]
    constructor
    · rintro ((hfl | hik) | hmem)
      · exact Or.inl hfl
      · exact Or.inr (hik ▸ List.mem_cons_self i t)
      · exact Or.inr (List.mem_cons_of_mem i hmem)
    · rintro (hfl | hmem)
      · exact Or.inl (Or.inl hfl)
      · rcases List.mem_cons.mp hmem with hki | hkt
        · exact Or.inl (Or.inr hki.symm)
        · exact Or.inr hkt

theorem condSetFold_length (P : ℕ → Prop) [DecidablePred P] (l : List ℕ) (fl : List Bool) :
    (condSetFold P l fl).length = fl.length :=
  foldl_condset_length P l fl

theorem condSetFold_getD (P : ℕ → Prop) [DecidablePred P] (l : List ℕ) (fl : List Bool)
    (k : ℕ) (hk : k < fl.length) :
    ((condSetFold P l fl).getD k false = true ↔
      fl.getD k false = true ∨ (k ∈ l ∧ P k)) :=
  foldl_condset_getD P l fl k hk

theorem setFold_length (l : List ℕ) (fl : List Bool) :
    (setFold l fl).length = fl.length :=
  foldl_set_length l fl

theorem setFold_getD (l : List ℕ) (fl : List Bool) (k : ℕ) (hk : k < fl.length) :
    ((setFold l fl).getD k false = true ↔ fl.getD k false = true ∨ k ∈ l) :=
  foldl_set_getD l fl k hk

theorem foldl_dedup_mem :
    ∀ (l : List ℕ) (cs : List ℕ) (k : ℕ),
      (k ∈ l.foldl (fun cs i => if i ∈ cs then cs else cs ++ [i]) cs ↔ k ∈ cs ∨ k ∈ l) := by
  intro l
  induction l with
  | nil => intro cs k; simp
  | cons i t ih =>
    intro cs k
    rw [List.foldl_cons]
    by_cases hmem : i ∈ cs
    · rw [if_pos hmem, ih]
      constructor
      · rintro (h | h)
        · exact Or.inl h
        · exact Or.inr (List.mem_cons_of_mem i h)
      · rintro (h | h)
        · exact Or.inl h
        · rcases List.mem_cons.mp h with hki | hkt
          · exact Or.inl (hki ▸ hmem)
          · exact Or.inr hkt
    · rw [if_neg hmem, ih]
      constructor
      · rintro (h | h)
        · rcases List.mem_append.mp h with h' | h'
          · exact Or.inl h'
          · exact Or.inr (List.mem_cons.mpr (Or.inl (List.mem_singleton.mp h')))
        · exact Or.inr (List.mem_cons_of_mem i h)
      · rintro (h | h)
        · exact Or.inl (List.mem_append.mpr (Or.inl h))
        · rcases List.mem_cons.mp h with hki | hkt
          · exact Or.inl (List.mem_append.mpr (Or.inr (by simp [hki])))
          · exact Or.inr hkt

theorem dedupFold_mem (l : List ℕ) (cs : List ℕ) (k : ℕ) :
    k ∈ dedupFold l cs ↔ k ∈ cs ∨ k ∈ l :=
  foldl_dedup_mem l cs k

/-! ### Bridge lemmas used by several claims -/

/-- Passing validation yields the computed result (vikor.py lines 40-47,179). -/
theorem vikor_eq_ok {data : List (List ℚ)} {w : List ℚ} {impacts : List Char}
    (h : ValidArgs data w impacts) (v : ℚ) (vb : Bool) :
    vikor data w impacts v vb = Except.ok (vikorCore data w impacts v) := by
  obtain ⟨h1, h2, h3⟩ := h
  have hall : impacts.all (fun c => c == '+' || c == '-') = true := by
    rw [List.all_eq_true]
    intro c hc
    rcases h3 c hc with h | h <;> simp [h]
  rw [vikor, if_neg (not_ne_iff.mpr h1), if_neg (not_ne_iff.mpr h2),
    if_neg (not_not_intro hall)]

theorem countP_range_eq_card_filter (p : ℕ → Bool) (m : ℕ) :
    (List.range m).countP p = ((Finset.range m).filter (fun j => p j = true)).card := by
  induction m with
  | zero => simp
  | succ k ih =>
    rw [List.range_succ, List.countP_append, Finset.range_succ, Finset.filter_insert]
    by_cases hp : p k = true
    · rw [if_pos hp, Finset.card_insert_of_not_mem (by simp), ← ih]
      simp [hp]
    · rw [if_neg hp, ← ih]
      simp [hp]

/-- The pandas `method='min'` rank is one plus the number of strictly better
rows: the spec's tied-alternatives-share-the-lowest-ordinal policy. -/
theorem minRank_card (xs : List ℚ) (i : ℕ) :
    minRank xs i =
      1 + ((Finset.range xs.length).filter
        (fun j => xs.getD j 0 < xs.getD i 0)).card := by
  have key : ∀ c : ℚ, xs.countP (fun y => y < c) =
      ((Finset.range xs.length).filter (fun j => xs.getD j 0 < c)).card := by
    intro c
    have h1 : xs.countP (fun y => y < c) =
        ((List.range xs.length).map (fun k => xs.getD k 0)).countP (fun y => y < c) := by
      rw [map_getD_range_self]
    rw [h1, List.countP_map, countP_range_eq_card_filter]
    refine congrArg Finset.card (Finset.filter_congr ?_)
    intro j _
    simp
  rw [minRank, key]

theorem listMax_map_range_isMaxOver {n : ℕ} (hn : 0 < n) (f : ℕ → ℚ) :
    IsMaxOver n f (listMax ((List.range n).map f)) := by
  have hne : (List.range n).map f ≠ [] := by
    intro hnil
    have := congrArg List.length hnil
    simp at this
    omega
  obtain ⟨hmem, hub⟩ := listMax_isMaxOf hne
  constructor
  · obtain ⟨j, hj, hjv⟩ := List.mem_map.mp hmem
    exact ⟨j, List.mem_range.mp hj, hjv⟩
  · intro j hj
    exact hub _ (List.mem_map.mpr ⟨j, List.mem_range.mpr hj, rfl⟩)

theorem Svals_ne_nil {data : List (List ℚ)} (h : 0 < data.length)
    (w : List ℚ) (impacts : List Char) : Svals data w impacts ≠ [] := by
  intro hnil
  have hlen : (Svals data w impacts).length = 0 := by rw [hnil]; rfl
  rw [Svals_length] at hlen
  unfold nalt at hlen
  omega

theorem Rvals_ne_nil {data : List (List ℚ)} (h : 0 < data.length)
    (w : List ℚ) (impacts : List Char) : Rvals data w impacts ≠ [] := by
  intro hnil
  have hlen : (Rvals data w impacts).length = 0 := by rw [hnil]; rfl
  rw [Rvals_length] at hlen
  unfold nalt at hlen
  omega

theorem dqVal_pos (m : ℕ) : 0 < dqVal m := by
  rw [dqVal]
  by_cases hm : 1 < m
  · rw [if_pos hm]
    have h1 : (1 : ℚ) < (m : ℚ) := by exact_mod_cast hm
    have h2 : 0 < (m : ℚ) - 1 := by linarith
    exact one_div_pos.mpr h2
  · rw [if_neg hm]
    norm_num

/-- The denominator `S⁻ − S* + ε` (resp. for `R`) is strictly positive. -/
theorem spread_denom_pos {xs : List ℚ} (h : xs ≠ []) :
    0 < listMax xs - listMin xs + eps := by
  have h1 := listMin_le_listMax h
  have h2 := eps_pos
  linarith

theorem vikorCore_S (data : List (List ℚ)) (w : List ℚ) (impacts : List Char) (v : ℚ) :
    (vikorCore data w impacts v).S = Svals data (normWeights w) impacts := rfl

theorem vikorCore_R (data : List (List ℚ)) (w : List ℚ) (impacts : List Char) (v : ℚ) :
    (vikorCore data w impacts v).R = Rvals data (normWeights w) impacts := rfl

theorem vikorCore_Q (data : List (List ℚ)) (w : List ℚ) (impacts : List Char) (v : ℚ) :
    (vikorCore data w impacts v).Q = Qvals data (normWeights w) impacts v := rfl

theorem vikorCore_qRank (data : List (List ℚ)) (w : List ℚ) (impacts : List Char) (v : ℚ) :
    (vikorCore data w impacts v).qRank = rankList (Qvals data (normWeights w) impacts v) := rfl

theorem vikorCore_sRank (data : List (List ℚ)) (w : List ℚ) (impacts : List Char) (v : ℚ) :
    (vikorCore data w impacts v).sRank = rankList (Svals data (normWeights w) impacts) := rfl

theorem vikorCore_rRank (data : List (List ℚ)) (w : List ℚ) (impacts : List Char) (v : ℚ) :
    (vikorCore data w impacts v).rRank = rankList (Rvals data (normWeights w) impacts) := rfl

theorem vikorCore_rank (data : List (List ℚ)) (w : List ℚ) (impacts : List Char) (v : ℚ) :
    (vikorCore data w impacts v).rank = rankList (Qvals data (normWeights w) impacts v) := rfl

theorem vikorCore_c1 (data : List (List ℚ)) (w : List ℚ) (impacts : List Char) (v : ℚ) :
    (vikorCore data w impacts v).c1 = c1sat (Qvals data (normWeights w) impacts v) := rfl

theorem vikorCore_c2 (data : List (List ℚ)) (w : List ℚ) (impacts : List Char) (v : ℚ) :
    (vikorCore data w impacts v).c2 = c2sat data (normWeights w) impacts v := rfl

theorem vikorCore_dq (data : List (List ℚ)) (w : List ℚ) (impacts : List Char) (v : ℚ) :
    (vikorCore data w impacts v).dq = dqVal (nalt data) := rfl

theorem vikorCore_isCompromise (data : List (List ℚ)) (w : List ℚ) (impacts : List Char)
    (v : ℚ) :
    (vikorCore data w impacts v).isCompromise = compromiseFlags data (normWeights w) impacts v :=
  rfl

theorem vikorCore_compromise (data : List (List ℚ)) (w : List ℚ) (impacts : List Char)
    (v : ℚ) :
    (vikorCore data w impacts v).compromise = compromiseSet data (normWeights w) impacts v :=
  rfl

theorem vikorCore_table (data : List (List ℚ)) (w : List ℚ) (impacts : List Char) (v : ℚ) :
    (vikorCore data w impacts v).table = data := rfl

/-! ### Concrete inputs used by the witnesses -/

/-- The 4-alternative benefit example from the spec's testable properties. -/
def exData : List (List ℚ) := [[7, 9, 9], [8, 7, 6], [6, 8, 8], [9, 6, 7]]

def exW : List ℚ := [33 / 100, 33 / 100, 34 / 100]

def exImp : List Char := ['+', '+', '+']

/-- A profile on which the `S` ordering and the `R` ordering disagree. -/
def exData5 : List (List ℚ) := [[4, 10], [6, 6], [10, 0], [0, 10]]

def exW5 : List ℚ := [1 / 2, 1 / 2]

def exImp5 : List Char := ['+', '+']

/-- Two alternatives, one criterion: the smallest profile with a non-zero
distance column. -/
def exData9 : List (List ℚ) := [[0], [1]]

def exImp9 : List Char := ['+']

/-! ### Claim theorems -/

/-- **C1.** For every numeric criteria table with valid weights and impacts,
`vikor` computes per criterion the ideal value as the column maximum for a
benefit impact `'+'` and the column minimum for a cost impact `'-'` (the
anti-ideal the opposite extreme), and sets `S(i)` to the sum over criteria and
`R(i)` to the maximum over criteria of
`weight_j * (ideal_j - value_ij) / (ideal_j - antiideal_j + eps)`. -/
theorem vikor_ideal_S_R_spec (data : List (List ℚ)) (w : List ℚ) (impacts : List Char)
    (v : ℚ) (vb : Bool) (hrect : Rect data) (hargs : ValidArgs data w impacts)
    (hw : |w.sum - 1| ≤ wtol) :
    vikor data w impacts v vb = Except.ok (vikorCore data w impacts v) ∧
    (∀ j < ncrit data,
      (impacts.getD j ' ' = '+' →
        IsColMax data j (idealVal data impacts j) ∧
        IsColMin data j (antiIdealVal data impacts j)) ∧
      (impacts.getD j ' ' = '-' →
        IsColMin data j (idealVal data impacts j) ∧
        IsColMax data j (antiIdealVal data impacts j))) ∧
    (∀ i < nalt data,
      (vikorCore data w impacts v).S.getD i 0 =
        ∑ j ∈ Finset.range (ncrit data),
          w.getD j 0 * (idealVal data impacts j - cell data i j) /
            (idealVal data impacts j - antiIdealVal data impacts j + eps)) ∧
    (∀ i < nalt data,
      IsMaxOver (ncrit data)
        (fun j => w.getD j 0 * (idealVal data impacts j - cell data i j) /
          (idealVal data impacts j - antiIdealVal data impacts j + eps))
        ((vikorCore data w impacts v).R.getD i 0)) := by
  obtain ⟨hm, hn, _⟩ := hrect
  have hnw := normWeights_of_close hw
  refine ⟨vikor_eq_ok hargs v vb, ?_, ?_, ?_⟩
  · intro j _
    have hspec := @idealVal_spec data impacts j hm
    refine ⟨hspec.1, ?_⟩
    intro hj'
    exact hspec.2 (by rw [hj']; decide)
  · intro i hi
    rw [vikorCore_S, Svals_getD hi, list_sum_range]
    refine Finset.sum_congr rfl ?_
    intro j _
    rw [wdist, hnw]
  · intro i hi
    have hmax := listMax_map_range_isMaxOver hn (wdist data (normWeights w) impacts i)
    rw [hnw] at hmax
    rw [vikorCore_R, Rvals_getD hi, hnw]
    exact hmax

/-- Witness for C1 at the spec's 4-alternative example. -/
theorem vikor_ideal_S_R_spec_witness :
    (vikor exData exW exImp (1 / 2) false =
      Except.ok (vikorCore exData exW exImp (1 / 2))) ∧
    IsColMax exData 0 (idealVal exData exImp 0) :=
  ⟨(vikor_ideal_S_R_spec exData exW exImp (1 / 2) false
      (by with_unfolding_all decide) (by with_unfolding_all decide)
      (by with_unfolding_all decide)).1,
   (((vikor_ideal_S_R_spec exData exW exImp (1 / 2) false
      (by with_unfolding_all decide) (by with_unfolding_all decide)
      (by with_unfolding_all decide)).2.1 0 (by with_unfolding_all decide)).1
      (by with_unfolding_all decide)).1⟩

/-- **C2.** For every valid input, `vikor` computes
`Q(i) = v*(S(i)-S*)/(S⁻-S*+eps) + (1-v)*(R(i)-R*)/(R⁻-R*+eps)` with `S*`,
`S⁻`, `R*`, `R⁻` the min/max of `S` and `R`, assigns `Q`/`S`/`R` ranks
ascending by the minimum-rank tie method (one plus the number of strictly
smaller entries), and sets the overall `Rank` column equal to the `Q` rank. -/
theorem vikor_Q_rank_spec (data : List (List ℚ)) (w : List ℚ) (impacts : List Char)
    (v : ℚ) (vb : Bool) (hrect : Rect data) (hargs : ValidArgs data w impacts) :
    vikor data w impacts v vb = Except.ok (vikorCore data w impacts v) ∧
    (∃ Sstar Sminus Rstar Rminus : ℚ,
      IsMinOf (vikorCore data w impacts v).S Sstar ∧
      IsMaxOf (vikorCore data w impacts v).S Sminus ∧
      IsMinOf (vikorCore data w impacts v).R Rstar ∧
      IsMaxOf (vikorCore data w impacts v).R Rminus ∧
      ∀ i < nalt data,
        (vikorCore data w impacts v).Q.getD i 0 =
          v * ((vikorCore data w impacts v).S.getD i 0 - Sstar) /
            (Sminus - Sstar + eps) +
          (1 - v) * ((vikorCore data w impacts v).R.getD i 0 - Rstar) /
            (Rminus - Rstar + eps)) ∧
    (∀ i < nalt data,
      (vikorCore data w impacts v).qRank.getD i 0 =
        1 + ((Finset.range (nalt data)).filter
          (fun j => (vikorCore data w impacts v).Q.getD j 0 <
            (vikorCore data w impacts v).Q.getD i 0)).card ∧
      (vikorCore data w impacts v).sRank.getD i 0 =
        1 + ((Finset.range (nalt data)).filter
          (fun j => (vikorCore data w impacts v).S.getD j 0 <
            (vikorCore data w impacts v).S.getD i 0)).card ∧
      (vikorCore data w impacts v).rRank.getD i 0 =
        1 + ((Finset.range (nalt data)).filter
          (fun j => (vikorCore data w impacts v).R.getD j 0 <
            (vikorCore data w impacts v).R.getD i 0)).card) ∧
    (vikorCore data w impacts v).rank = (vikorCore data w impacts v).qRank := by
  obtain ⟨hm, _, _⟩ := hrect
  refine ⟨vikor_eq_ok hargs v vb, ?_, ?_, rfl⟩
  · refine ⟨listMin (Svals data (normWeights w) impacts),
      listMax (Svals data (normWeights w) impacts),
      listMin (Rvals data (normWeights w) impacts),
      listMax (Rvals data (normWeights w) impacts),
      listMin_isMinOf (Svals_ne_nil hm _ _), listMax_isMaxOf (Svals_ne_nil hm _ _),
      listMin_isMinOf (Rvals_ne_nil hm _ _), listMax_isMaxOf (Rvals_ne_nil hm _ _), ?_⟩
    intro i hi
    rw [vikorCore_Q, vikorCore_S, vikorCore_R, Qvals_getD hi]
  · intro i hi
    refine ⟨?_, ?_, ?_⟩
    · rw [vikorCore_qRank, vikorCore_Q,
        rankList_getD (by rw [Qvals_length]; exact hi), minRank_card, Qvals_length]
    · rw [vikorCore_sRank, vikorCore_S,
        rankList_getD (by rw [Svals_length]; exact hi), minRank_card, Svals_length]
    · rw [vikorCore_rRank, vikorCore_R,
        rankList_getD (by rw [Rvals_length]; exact hi), minRank_card, Rvals_length]

/-- Witness for C2 at the spec's 4-alternative example. -/
theorem vikor_Q_rank_spec_witness :
    (vikor exData exW exImp (1 / 2) false =
      Except.ok (vikorCore exData exW exImp (1 / 2))) ∧
    (vikorCore exData exW exImp (1 / 2)).rank =
      (vikorCore exData exW exImp (1 / 2)).qRank :=
  ⟨(vikor_Q_rank_spec exData exW exImp (1 / 2) false
      (by with_unfolding_all decide) (by with_unfolding_all decide)).1,
   (vikor_Q_rank_spec exData exW exImp (1 / 2) false
      (by with_unfolding_all decide) (by with_unfolding_all decide)).2.2.2⟩

theorem replicate_false_getD (m k : ℕ) :
    (List.replicate m false).getD k false = false := by
  by_cases hk : k < m
  · rw [List.getD_eq_getElem _ _ (by rw [List.length_replicate]; exact hk)]
    exact List.getElem_replicate _ _
  · exact List.getD_eq_default _ _ (by rw [List.length_replicate]; omega)

theorem set_replicate_getD {m b : ℕ} (k : ℕ) (hk : k < m) :
    (((List.replicate m false).set b true).getD k false = true ↔ k = b) := by
  rw [List.getD_eq_getElem _ _
    (by rw [List.length_set, List.length_replicate]; exact hk), List.getElem_set]
  by_cases hbk : b = k
  · simp [hbk]
  · rw [if_neg hbk, List.getElem_replicate]
    exact iff_of_false (by simp) (fun h => hbk h.symm)

/-- **C3.** For every valid input with `m` alternatives, `vikor` sets
`DQ = 1/(m-1)` when `m > 1` and `1` otherwise, evaluates C1 as true iff the
`Q`-gap between the best-ranked and second-ranked alternative is `≥ DQ`
(trivially true when `m = 1`), and evaluates C2 as true iff the alternative
best-ranked by `Q` (first in table order among ties) is also best-ranked by
`S` or by `R`. -/
theorem vikor_acceptance_spec (data : List (List ℚ)) (w : List ℚ) (impacts : List Char)
    (v : ℚ) (vb : Bool) (hrect : Rect data) (hargs : ValidArgs data w impacts) :
    vikor data w impacts v vb = Except.ok (vikorCore data w impacts v) ∧
    (vikorCore data w impacts v).dq =
      (if 1 < nalt data then 1 / ((nalt data : ℚ) - 1) else 1) ∧
    (nalt data = 1 → (vikorCore data w impacts v).c1 = true) ∧
    (∀ qs : List ℚ, List.Perm qs (vikorCore data w impacts v).Q →
      List.Sorted (· ≤ ·) qs →
      ((vikorCore data w impacts v).c1 = true ↔
        (nalt data = 1 ∨
          qs.getD 1 0 - qs.getD 0 0 ≥ (vikorCore data w impacts v).dq))) ∧
    IsFirstMin (vikorCore data w impacts v).Q (bestQIdx (vikorCore data w impacts v).Q) ∧
    IsFirstMin (vikorCore data w impacts v).S (bestByRank (vikorCore data w impacts v).S) ∧
    IsFirstMin (vikorCore data w impacts v).R (bestByRank (vikorCore data w impacts v).R) ∧
    ((vikorCore data w impacts v).c2 = true ↔
      (bestQIdx (vikorCore data w impacts v).Q = bestByRank (vikorCore data w impacts v).S ∨
       bestQIdx (vikorCore data w impacts v).Q =
         bestByRank (vikorCore data w impacts v).R)) := by
  obtain ⟨hm, _, _⟩ := hrect
  have hmq : nalt data = data.length := rfl
  have hlenQ : (Qvals data (normWeights w) impacts v).length = nalt data :=
    Qvals_length data (normWeights w) impacts v
  have hlenS : (Svals data (normWeights w) impacts).length = nalt data :=
    Svals_length data (normWeights w) impacts
  have hlenR : (Rvals data (normWeights w) impacts).length = nalt data :=
    Rvals_length data (normWeights w) impacts
  refine ⟨vikor_eq_ok hargs v vb, by rw [vikorCore_dq, dqVal], ?_, ?_, ?_, ?_, ?_, ?_⟩
  · intro hm1
    rw [vikorCore_c1, c1sat, if_neg (by rw [hlenQ, hm1]; omega)]
  · intro qs hperm hsorted
    rw [vikorCore_Q] at hperm
    have hq : qs = qSorted (Qvals data (normWeights w) impacts v) := by
      refine List.eq_of_perm_of_sorted ?_ hsorted (qSorted_sorted _)
      exact hperm.trans (qSorted_perm _).symm
    subst hq
    rw [vikorCore_c1, vikorCore_dq, c1sat]
    by_cases h1 : 1 < (Qvals data (normWeights w) impacts v).length
    · rw [if_pos h1, hlenQ]
      simp only [decide_eq_true_eq]
      constructor
      · intro hgap
        exact Or.inr hgap
      · rintro (hone | hgap)
        · rw [hlenQ] at h1
          omega
        · exact hgap
    · rw [if_neg h1]
      rw [hlenQ] at h1
      simp only [true_iff]
      exact Or.inl (by rw [hmq] at *; omega)
  · rw [vikorCore_Q]
    exact bestQIdx_isFirstMin (by rw [hlenQ, hmq]; exact hm)
  · rw [vikorCore_S]
    exact bestByRank_isFirstMin (by rw [hlenS, hmq]; exact hm)
  · rw [vikorCore_R]
    exact bestByRank_isFirstMin (by rw [hlenR, hmq]; exact hm)
  · rw [vikorCore_c2, vikorCore_Q, vikorCore_S, vikorCore_R, c2sat]
    simp [Bool.or_eq_true, beq_iff_eq]

/-- Witness for C3 at the spec's 4-alternative example. -/
theorem vikor_acceptance_spec_witness :
    (vikor exData exW exImp (1 / 2) false =
      Except.ok (vikorCore exData exW exImp (1 / 2))) ∧
    (vikorCore exData exW exImp (1 / 2)).dq =
      (if 1 < nalt exData then 1 / ((nalt exData : ℚ) - 1) else 1) :=
  ⟨(vikor_acceptance_spec exData exW exImp (1 / 2) false
      (by with_unfolding_all decide) (by with_unfolding_all decide)).1,
   (vikor_acceptance_spec exData exW exImp (1 / 2) false
      (by with_unfolding_all decide) (by with_unfolding_all decide)).2.1⟩

/-- **C4.** For every valid input, the compromise flags are determined by
exactly three branches: if C1 and C2 both hold only the best-by-`Q` row is
flagged; if C1 fails exactly the rows whose `Q` lies within `DQ` of the best
`Q` are flagged; if only C2 fails the flagged set is the union of the
best-by-`Q`, best-by-`S` and best-by-`R` rows. -/
theorem vikor_compromise_branches_spec (data : List (List ℚ)) (w : List ℚ)
    (impacts : List Char) (v : ℚ) (vb : Bool)
    (hrect : Rect data) (hargs : ValidArgs data w impacts) :
    vikor data w impacts v vb = Except.ok (vikorCore data w impacts v) ∧
    (vikorCore data w impacts v).isCompromise.length = nalt data ∧
    ((vikorCore data w impacts v).c1 = true ∧ (vikorCore data w impacts v).c2 = true →
      ∀ k < nalt data,
        ((vikorCore data w impacts v).isCompromise.getD k false = true ↔
          k = bestQIdx (vikorCore data w impacts v).Q)) ∧
    ((vikorCore data w impacts v).c1 = false →
      ∀ k < nalt data,
        ((vikorCore data w impacts v).isCompromise.getD k false = true ↔
          (vikorCore data w impacts v).Q.getD k 0 -
            (vikorCore data w impacts v).Q.getD (bestQIdx (vikorCore data w impacts v).Q) 0 <
            (vikorCore data w impacts v).dq)) ∧
    ((vikorCore data w impacts v).c1 = true ∧ (vikorCore data w impacts v).c2 = false →
      ∀ k < nalt data,
        ((vikorCore data w impacts v).isCompromise.getD k false = true ↔
          (k = bestQIdx (vikorCore data w impacts v).Q ∨
           k = bestByRank (vikorCore data w impacts v).S ∨
           k = bestByRank (vikorCore data w impacts v).R))) := by
  obtain ⟨hm, _, _⟩ := hrect
  have hmq : nalt data = data.length := rfl
  have hlenQ : (Qvals data (normWeights w) impacts v).length = nalt data :=
    Qvals_length data (normWeights w) impacts v
  have hQpos : 0 < (Qvals data (normWeights w) impacts v).length := by
    rw [hlenQ, hmq]; exact hm
  refine ⟨vikor_eq_ok hargs v vb, ?_, ?_, ?_, ?_⟩
  · rw [vikorCore_isCompromise, compromiseFlags]
    by_cases h12 : (c1sat (Qvals data (normWeights w) impacts v) &&
        c2sat data (normWeights w) impacts v) = true
    · rw [if_pos h12, List.length_set, List.length_replicate]
    · rw [if_neg h12]
      by_cases h1 : (!c1sat (Qvals data (normWeights w) impacts v)) = true
      · rw [if_pos h1, condSetFold_length, List.length_replicate]
      · rw [if_neg h1, setFold_length, List.length_replicate]
  · rintro ⟨hc1, hc2⟩ k hk
    rw [vikorCore_c1] at hc1
    rw [vikorCore_c2] at hc2
    rw [vikorCore_Q, vikorCore_isCompromise, compromiseFlags,
      if_pos (by rw [hc1, hc2]; rfl)]
    exact set_replicate_getD k hk
  · intro hc1 k hk
    rw [vikorCore_c1] at hc1
    rw [vikorCore_Q, vikorCore_dq, vikorCore_isCompromise, compromiseFlags,
      if_neg (by rw [hc1]; simp), if_pos (by rw [hc1]; rfl)]
    rw [condSetFold_getD _ _ _ k (by rw [List.length_replicate]; exact hk),
      replicate_false_getD]
    have hmem : k ∈ sortOrder (Qvals data (normWeights w) impacts v) :=
      sortOrder_mem.mpr (by rw [hlenQ]; exact hk)
    rw [qSorted_getD_zero hQpos]
    constructor
    · rintro (habs | ⟨_, hP⟩)
      · exact absurd habs (by simp)
      · exact hP
    · intro hP
      exact Or.inr ⟨hmem, hP⟩
  · rintro ⟨hc1, hc2⟩ k hk
    rw [vikorCore_c1] at hc1
    rw [vikorCore_c2] at hc2
    rw [vikorCore_Q, vikorCore_S, vikorCore_R, vikorCore_isCompromise, compromiseFlags,
      if_neg (by rw [hc1, hc2]; simp), if_neg (by rw [hc1]; simp)]
    rw [setFold_getD _ _ k (by rw [List.length_replicate]; exact hk),
      replicate_false_getD]
    simp [List.mem_cons]

/-- Witness for C4 at the spec's 4-alternative example (where C1 and C2 both
hold and row 0 is the single compromise). -/
theorem vikor_compromise_branches_spec_witness :
    ((vikorCore exData exW exImp (1 / 2)).c1 = true ∧
      (vikorCore exData exW exImp (1 / 2)).c2 = true) ∧
    ((vikorCore exData exW exImp (1 / 2)).isCompromise.getD 0 false = true ↔
      0 = bestQIdx (vikorCore exData exW exImp (1 / 2)).Q) :=
  ⟨by with_unfolding_all decide,
   (vikor_compromise_branches_spec exData exW exImp (1 / 2) false
      (by with_unfolding_all decide) (by with_unfolding_all decide)).2.2.1
      ⟨by with_unfolding_all decide, by with_unfolding_all decide⟩ 0
      (by with_unfolding_all decide)⟩

/-- **C10.** For every valid input the compromise set is non-empty: in each of
the three branches the alternative ranked first by `Q` (the first in table
order among ties) has its `Is_Compromise` flag set and appears in the
`compromise_set` metadata. -/
theorem vikor_compromise_nonempty (data : List (List ℚ)) (w : List ℚ)
    (impacts : List Char) (v : ℚ) (vb : Bool)
    (hrect : Rect data) (hargs : ValidArgs data w impacts) :
    vikor data w impacts v vb = Except.ok (vikorCore data w impacts v) ∧
    IsFirstMin (vikorCore data w impacts v).Q (bestQIdx (vikorCore data w impacts v).Q) ∧
    (vikorCore data w impacts v).qRank.getD (bestQIdx (vikorCore data w impacts v).Q) 0 = 1 ∧
    (vikorCore data w impacts v).isCompromise.getD
      (bestQIdx (vikorCore data w impacts v).Q) false = true ∧
    bestQIdx (vikorCore data w impacts v).Q ∈ (vikorCore data w impacts v).compromise := by
  obtain ⟨hm, _, _⟩ := hrect
  have hmq : nalt data = data.length := rfl
  have hlenQ : (Qvals data (normWeights w) impacts v).length = nalt data :=
    Qvals_length data (normWeights w) impacts v
  have hQpos : 0 < (Qvals data (normWeights w) impacts v).length := by
    rw [hlenQ, hmq]; exact hm
  have hbq := bestQIdx_isFirstMin hQpos
  have hbqlt : bestQIdx (Qvals data (normWeights w) impacts v) < nalt data := by
    have := hbq.1; rwa [hlenQ] at this
  have hbqmem : bestQIdx (Qvals data (normWeights w) impacts v) ∈
      sortOrder (Qvals data (normWeights w) impacts v) :=
    sortOrder_mem.mpr hbq.1
  have hP : (Qvals data (normWeights w) impacts v).getD
      (bestQIdx (Qvals data (normWeights w) impacts v)) 0 -
      (qSorted (Qvals data (normWeights w) impacts v)).getD 0 0 < dqVal (nalt data) := by
    rw [qSorted_getD_zero hQpos, sub_self]
    exact dqVal_pos _
  refine ⟨vikor_eq_ok hargs v vb, by rw [vikorCore_Q]; exact hbq, ?_, ?_, ?_⟩
  · rw [vikorCore_Q, vikorCore_qRank, rankList_getD hbq.1]
    refine (minRank_eq_one_iff _).mpr ?_
    exact (isFirstMin_isMinOf hbq).2
  · rw [vikorCore_Q, vikorCore_isCompromise, compromiseFlags]
    by_cases h12 : (c1sat (Qvals data (normWeights w) impacts v) &&
        c2sat data (normWeights w) impacts v) = true
    · rw [if_pos h12]
      exact (set_replicate_getD _ hbqlt).mpr rfl
    · rw [if_neg h12]
      by_cases h1 : c1sat (Qvals data (normWeights w) impacts v) = true
      · rw [if_neg (by rw [h1]; simp)]
        refine (setFold_getD _ _ _ (by rw [List.length_replicate]; exact hbqlt)).mpr ?_
        exact Or.inr (List.mem_cons_self _ _)
      · have hc1 : c1sat (Qvals data (normWeights w) impacts v) = false := by
          cases hcb : c1sat (Qvals data (normWeights w) impacts v)
          · rfl
          · exact absurd hcb h1
        rw [if_pos (by rw [hc1]; rfl)]
        refine (condSetFold_getD _ _ _ _ (by rw [List.length_replicate]; exact hbqlt)).mpr ?_
        exact Or.inr ⟨hbqmem, hP⟩
  · rw [vikorCore_Q, vikorCore_compromise, compromiseSet]
    by_cases h12 : (c1sat (Qvals data (normWeights w) impacts v) &&
        c2sat data (normWeights w) impacts v) = true
    · rw [if_pos h12]
      exact List.mem_singleton.mpr rfl
    · rw [if_neg h12]
      by_cases h1 : c1sat (Qvals data (normWeights w) impacts v) = true
      · rw [if_neg (by rw [h1]; simp)]
        exact (dedupFold_mem _ _ _).mpr (Or.inr (List.mem_cons_self _ _))
      · have hc1 : c1sat (Qvals data (normWeights w) impacts v) = false := by
          cases hcb : c1sat (Qvals data (normWeights w) impacts v)
          · rfl
          · exact absurd hcb h1
        rw [if_pos (by rw [hc1]; rfl)]
        exact List.mem_filter.mpr ⟨hbqmem, decide_eq_true hP⟩

/-- Witness for C10 at the spec's 4-alternative example. -/
theorem vikor_compromise_nonempty_witness :
    (vikorCore exData exW exImp (1 / 2)).isCompromise.getD
      (bestQIdx (vikorCore exData exW exImp (1 / 2)).Q) false = true ∧
    bestQIdx (vikorCore exData exW exImp (1 / 2)).Q ∈
      (vikorCore exData exW exImp (1 / 2)).compromise :=
  ⟨(vikor_compromise_nonempty exData exW exImp (1 / 2) false
      (by with_unfolding_all decide) (by with_unfolding_all decide)).2.2.2.1,
   (vikor_compromise_nonempty exData exW exImp (1 / 2) false
      (by with_unfolding_all decide) (by with_unfolding_all decide)).2.2.2.2⟩

/-- **C6.** For every numeric criteria table, `vikor` aborts with an error and
returns no partial result if and only if the weight count differs from the
criterion count, or the impact count differs from it, or some impact symbol is
neither `'+'` nor `'-'`; when all three checks pass it returns a result. -/
theorem vikor_validation_spec (data : List (List ℚ)) (w : List ℚ) (impacts : List Char)
    (v : ℚ) (vb : Bool) (_hrect : Rect data) :
    ((∃ e, vikor data w impacts v vb = Except.error e) ↔
      (w.length ≠ ncrit data ∨ impacts.length ≠ ncrit data ∨
        ∃ c ∈ impacts, c ≠ '+' ∧ c ≠ '-')) ∧
    (¬(w.length ≠ ncrit data ∨ impacts.length ≠ ncrit data ∨
        ∃ c ∈ impacts, c ≠ '+' ∧ c ≠ '-') →
      vikor data w impacts v vb = Except.ok (vikorCore data w impacts v)) := by
  have hvalid : ¬(w.length ≠ ncrit data ∨ impacts.length ≠ ncrit data ∨
      ∃ c ∈ impacts, c ≠ '+' ∧ c ≠ '-') → ValidArgs data w impacts := by
    intro h
    push_neg at h
    obtain ⟨h1, h2, h3⟩ := h
    refine ⟨h1, h2, ?_⟩
    intro c hc
    by_cases hp : c = '+'
    · exact Or.inl hp
    · exact Or.inr (h3 c hc hp)
  constructor
  · constructor
    · rintro ⟨e, he⟩
      by_contra hcon
      rw [vikor_eq_ok (hvalid hcon) v vb] at he
      exact absurd he (by simp)
    · intro hrhs
      by_cases hw : w.length = ncrit data
      · by_cases hi : impacts.length = ncrit data
        · have hsym : ¬(impacts.all (fun c => c == '+' || c == '-')) = true := by
            rcases hrhs with h | h | h
            · exact absurd hw h
            · exact absurd hi h
            · obtain ⟨c, hc, hcp, hcm⟩ := h
              intro hall
              have hb := List.all_eq_true.mp hall c hc
              simp only [Bool.or_eq_true, beq_iff_eq] at hb
              rcases hb with hb | hb
              · exact hcp hb
              · exact hcm hb
          exact ⟨_, by rw [vikor, if_neg (not_ne_iff.mpr hw),
            if_neg (not_ne_iff.mpr hi), if_pos hsym]⟩
        · exact ⟨_, by rw [vikor, if_neg (not_ne_iff.mpr hw), if_pos hi]⟩
      · exact ⟨_, by rw [vikor, if_pos hw]⟩
  · intro h
    exact vikor_eq_ok (hvalid h) v vb

/-- Witness for C6: the checks pass on the example and a result is returned. -/
theorem vikor_validation_spec_witness :
    vikor exData exW exImp (1 / 2) false =
      Except.ok (vikorCore exData exW exImp (1 / 2)) :=
  (vikor_validation_spec exData exW exImp (1 / 2) false
    (by with_unfolding_all decide)).2 (by with_unfolding_all decide)

/-- **C7.** For every valid input, the returned table keeps its rows in the
original alternative order (`result` is a copy of the input data and the
scores, ranks and flags are annotation columns of matching length; the
function returns `result`, not the sorted view), and the caller's table is
unchanged (the embedding is pure and the result carries the rows as given). -/
theorem vikor_row_preservation_spec (data : List (List ℚ)) (w : List ℚ)
    (impacts : List Char) (v : ℚ) (vb : Bool)
    (_hrect : Rect data) (hargs : ValidArgs data w impacts) :
    vikor data w impacts v vb = Except.ok (vikorCore data w impacts v) ∧
    (vikorCore data w impacts v).table = data ∧
    (vikorCore data w impacts v).S.length = nalt data ∧
    (vikorCore data w impacts v).R.length = nalt data ∧
    (vikorCore data w impacts v).Q.length = nalt data ∧
    (vikorCore data w impacts v).qRank.length = nalt data ∧
    (vikorCore data w impacts v).sRank.length = nalt data ∧
    (vikorCore data w impacts v).rRank.length = nalt data ∧
    (vikorCore data w impacts v).rank.length = nalt data ∧
    (vikorCore data w impacts v).isCompromise.length = nalt data := by
  refine ⟨vikor_eq_ok hargs v vb, rfl, Svals_length _ _ _, Rvals_length _ _ _,
    Qvals_length _ _ _ _, ?_, ?_, ?_, ?_, ?_⟩
  · rw [vikorCore_qRank, rankList_length, Qvals_length]
  · rw [vikorCore_sRank, rankList_length, Svals_length]
  · rw [vikorCore_rRank, rankList_length, Rvals_length]
  · rw [vikorCore_rank, rankList_length, Qvals_length]
  · rw [vikorCore_isCompromise, compromiseFlags]
    by_cases h12 : (c1sat (Qvals data (normWeights w) impacts v) &&
        c2sat data (normWeights w) impacts v) = true
    · rw [if_pos h12, List.length_set, List.length_replicate]
    · rw [if_neg h12]
      by_cases h1 : (!c1sat (Qvals data (normWeights w) impacts v)) = true
      · rw [if_pos h1, condSetFold_length, List.length_replicate]
      · rw [if_neg h1, setFold_length, List.length_replicate]

/-- Witness for C7 at the spec's 4-alternative example. -/
theorem vikor_row_preservation_spec_witness :
    (vikorCore exData exW exImp (1 / 2)).table = exData ∧
    (vikorCore exData exW exImp (1 / 2)).isCompromise.length = nalt exData :=
  ⟨(vikor_row_preservation_spec exData exW exImp (1 / 2) false
      (by with_unfolding_all decide) (by with_unfolding_all decide)).2.1,
   (vikor_row_preservation_spec exData exW exImp (1 / 2) false
      (by with_unfolding_all decide) (by with_unfolding_all decide)).2.2.2.2.2.2.2.2.2⟩

/-- **C8.** For every input, `vikor` with `verbose=True` returns a result
identical in every computed value, rank, flag and metadata to `vikor` with
`verbose=False`: the verbose block of the source only prints diagnostics, so
the returned value does not depend on the flag at all. -/
theorem vikor_verbose_irrelevance (data : List (List ℚ)) (w : List ℚ)
    (impacts : List Char) (v : ℚ) :
    vikor data w impacts v true = vikor data w impacts v false := rfl

instance {ε α : Type} [DecidableEq ε] [DecidableEq α] : DecidableEq (Except ε α) :=
  fun x y =>
    match x, y with
    | Except.error e, Except.error f =>
      if h : e = f then Decidable.isTrue (by rw [h]) else Decidable.isFalse (by simp [h])
    | Except.error _, Except.ok _ => Decidable.isFalse (by simp)
    | Except.ok _, Except.error _ => Decidable.isFalse (by simp)
    | Except.ok a, Except.ok b =>
      if h : a = b then Decidable.isTrue (by rw [h]) else Decidable.isFalse (by simp [h])

/-- Ranks are unchanged under a transformation of the value column that
preserves all strict comparisons. -/
theorem rankList_congr_strict {xs ys : List ℚ} (hlen : xs.length = ys.length)
    (h : ∀ i < ys.length, ∀ j < ys.length,
      (xs.getD j 0 < xs.getD i 0 ↔ ys.getD j 0 < ys.getD i 0)) :
    rankList xs = rankList ys := by
  rw [rankList, rankList, hlen]
  refine List.map_congr_left ?_
  intro i hi
  rw [List.mem_range] at hi
  rw [minRank_card, minRank_card, hlen]
  congr 1
  congr 1
  refine Finset.filter_congr ?_
  intro j hj
  rw [Finset.mem_range] at hj
  exact h i hi j hj

/-- **C5 (counterexample).** On a profile where the `S` and `R` orderings
disagree, the ranking computed with `v = 0` is not the ranking induced by
ordering `S` ascending, and the ranking computed with `v = 1` is not the one
induced by ordering `R` ascending — the claim has the two extremes backwards. -/
theorem vikor_strategy_extremes_counterexample :
    Rect exData5 ∧ ValidArgs exData5 exW5 exImp5 ∧
    (vikorCore exData5 exW5 exImp5 0).rank ≠ (vikorCore exData5 exW5 exImp5 0).sRank ∧
    (vikorCore exData5 exW5 exImp5 1).rank ≠ (vikorCore exData5 exW5 exImp5 1).rRank := by
  refine ⟨by with_unfolding_all decide, by with_unfolding_all decide, ?_, ?_⟩
  · with_unfolding_all decide
  · with_unfolding_all decide

/-- **C5 (amended).** For every valid input, the ranking produced by `vikor`
with `v = 0` is identical to the ranking induced by ordering `R` ascending,
and with `v = 1` identical to the ranking induced by ordering `S` ascending
(in the `Q` formula `v` weighs the group-utility term `S`, so `v = 0` leaves
only the regret term `R`). -/
theorem vikor_strategy_extremes (data : List (List ℚ)) (w : List ℚ)
    (impacts : List Char) (vb : Bool)
    (hrect : Rect data) (hargs : ValidArgs data w impacts) :
    vikor data w impacts 0 vb = Except.ok (vikorCore data w impacts 0) ∧
    (vikorCore data w impacts 0).rank = (vikorCore data w impacts 0).rRank ∧
    vikor data w impacts 1 vb = Except.ok (vikorCore data w impacts 1) ∧
    (vikorCore data w impacts 1).rank = (vikorCore data w impacts 1).sRank := by
  obtain ⟨hm, _, _⟩ := hrect
  have hdR : 0 < listMax (Rvals data (normWeights w) impacts) -
      listMin (Rvals data (normWeights w) impacts) + eps :=
    spread_denom_pos (Rvals_ne_nil hm _ _)
  have hdS : 0 < listMax (Svals data (normWeights w) impacts) -
      listMin (Svals data (normWeights w) impacts) + eps :=
    spread_denom_pos (Svals_ne_nil hm _ _)
  refine ⟨vikor_eq_ok hargs 0 vb, ?_, vikor_eq_ok hargs 1 vb, ?_⟩
  · rw [vikorCore_rank, vikorCore_rRank]
    refine rankList_congr_strict (by rw [Qvals_length, Rvals_length]) ?_
    intro i hi j hj
    rw [Rvals_length] at hi hj
    have hQ : ∀ k, k < nalt data →
        (Qvals data (normWeights w) impacts 0).getD k 0 =
          ((Rvals data (normWeights w) impacts).getD k 0 -
            listMin (Rvals data (normWeights w) impacts)) /
          (listMax (Rvals data (normWeights w) impacts) -
            listMin (Rvals data (normWeights w) impacts) + eps) := by
      intro k hk
      rw [Qvals_getD hk]
      ring
    rw [hQ i hi, hQ j hj, div_lt_div_iff_of_pos_right hdR, sub_lt_sub_iff_right]
  · rw [vikorCore_rank, vikorCore_sRank]
    refine rankList_congr_strict (by rw [Qvals_length, Svals_length]) ?_
    intro i hi j hj
    rw [Svals_length] at hi hj
    have hQ : ∀ k, k < nalt data →
        (Qvals data (normWeights w) impacts 1).getD k 0 =
          ((Svals data (normWeights w) impacts).getD k 0 -
            listMin (Svals data (normWeights w) impacts)) /
          (listMax (Svals data (normWeights w) impacts) -
            listMin (Svals data (normWeights w) impacts) + eps) := by
      intro k hk
      rw [Qvals_getD hk]
      ring
    rw [hQ i hi, hQ j hj, div_lt_div_iff_of_pos_right hdS, sub_lt_sub_iff_right]

/-- Witness for the amended C5 at the conflicting profile. -/
theorem vikor_strategy_extremes_witness :
    (vikorCore exData5 exW5 exImp5 0).rank = (vikorCore exData5 exW5 exImp5 0).rRank ∧
    (vikorCore exData5 exW5 exImp5 1).rank = (vikorCore exData5 exW5 exImp5 1).sRank :=
  ⟨(vikor_strategy_extremes exData5 exW5 exImp5 false
      (by with_unfolding_all decide) (by with_unfolding_all decide)).2.1,
   (vikor_strategy_extremes exData5 exW5 exImp5 false
      (by with_unfolding_all decide) (by with_unfolding_all decide)).2.2.2⟩

/-- **C9 (counterexample).** Exact invariance under positive weight scaling
fails when one of the two vectors falls inside the `1e-6` tolerance band and
is used raw while the other is renormalized: scaling the already-normalized
weight `[1]` by `c = 1 + 1e-7` changes the returned `S` (and `Q`) columns. -/
theorem vikor_weight_scaling_counterexample :
    Rect exData9 ∧ ValidArgs exData9 [(1 : ℚ)] exImp9 ∧
    0 < ([(1 : ℚ)]).sum ∧ 0 < ((10000001 : ℚ) / 10000000) ∧
    vikor exData9 ([(1 : ℚ)].map (fun x => ((10000001 : ℚ) / 10000000) * x))
        exImp9 (1 / 2) false ≠
      vikor exData9 [(1 : ℚ)] exImp9 (1 / 2) false := by
  refine ⟨by with_unfolding_all decide, by with_unfolding_all decide,
    by norm_num, by norm_num, ?_⟩
  with_unfolding_all decide

/-- **C9 (amended).** Whenever both `w` and `c*w` have sums differing from `1`
by more than `1e-6` — so both are renormalized by their sums before any
computation — `vikor` returns identical results for `c*w` and `w`, for every
positive scalar `c` and weight vector with positive sum.  (When one of the two
vectors lies inside the tolerance band it is used raw and exact invariance can
fail, as the counterexample shows.) -/
theorem vikor_weight_scaling (data : List (List ℚ)) (w : List ℚ) (impacts : List Char)
    (v : ℚ) (vb : Bool) (c : ℚ) (hc : 0 < c) (_hsum : 0 < w.sum)
    (h1 : |w.sum - 1| > wtol) (h2 : |(w.map (fun x => c * x)).sum - 1| > wtol) :
    vikor data (w.map (fun x => c * x)) impacts v vb = vikor data w impacts v vb := by
  have hmapsum : ∀ u : List ℚ, (u.map (fun x => c * x)).sum = c * u.sum := by
    intro u
    induction u with
    | nil => simp
    | cons a t ih =>
      rw [List.map_cons, List.sum_cons, List.sum_cons, ih, mul_add]
  have hmapsum := hmapsum w
  have hnorm : normWeights (w.map (fun x => c * x)) = normWeights w := by
    rw [normWeights, normWeights, if_pos h2, if_pos h1, hmapsum, List.map_map]
    refine List.map_congr_left ?_
    intro x _
    show c * x / (c * w.sum) = x / w.sum
    rw [mul_div_mul_left]
    exact ne_of_gt hc
  have hcore : vikorCore data (w.map (fun x => c * x)) impacts v =
      vikorCore data w impacts v := by
    unfold vikorCore
    rw [hnorm]
  rw [vikor, vikor, List.length_map, hcore]

/-- Witness for the amended C9: doubling an unnormalized weight vector leaves
the result unchanged. -/
theorem vikor_weight_scaling_witness :
    vikor exData5 ([(1 : ℚ), 1].map (fun x => (2 : ℚ) * x)) exImp5 (1 / 2) false =
      vikor exData5 [(1 : ℚ), 1] exImp5 (1 / 2) false :=
  vikor_weight_scaling exData5 [(1 : ℚ), 1] exImp5 (1 / 2) false 2
    (by norm_num) (by with_unfolding_all decide)
    (by with_unfolding_all decide) (by with_unfolding_all decide)

end Vikor
